import Mathlib

/-!
Verification of the accumulator-bound pruning specification of the
`concrete-ml` documentation, together with the calibration step of the
LoRA fine-tuning notebook.

The repository ships only a prose documentation page
(`docs/user/explanation/pruning.md`) describing the bounded-accumulator
pruning technique, and a usage notebook
(`use_case_examples/lora_finetuning/LLamaFineTuning.ipynb`).  The
`check_layer` / `prune_to_satisfy` operations of the
AccumulatorBoundEnforcer are specified at design level only, so they are
modelled here from the specification text.  The notebook's calibration
length check is real source code and is embedded directly.
-/

/-- Modelled from the spec: the numeric input range `[x_min, x_max]` of a
layer.  Real values are modelled by rationals. -/
structure InputRange where
  xMin : ℚ
  xMax : ℚ
deriving DecidableEq

/-- Modelled from the spec: the caller-input error taxonomy of the
AccumulatorBoundEnforcer (`ShapeMismatch`, `InvalidRange`,
`InvalidTarget`). -/
inductive EnforcerError where
  | ShapeMismatch
  | InvalidRange
  | InvalidTarget
deriving DecidableEq

/-- Modelled from the spec: result of `check_layer`: `Satisfied`, or
`Violated(v_max, limit)`. -/
inductive CheckResult where
  | Satisfied
  | Violated (vMax : ℚ) (limit : ℚ)
deriving DecidableEq

/-- Modelled from the spec: status returned by `prune_to_satisfy`:
`Satisfied`, or the non-fatal `InsufficientPruning`. -/
inductive PruneStatus where
  | Satisfied
  | InsufficientPruning
deriving DecidableEq

/-- Modelled from the spec: the inclusive accumulator limit for a bit
width, `2 ^ bound_bits - 1`. -/
def accLimit (bound_bits : Nat) : ℚ := 2 ^ bound_bits - 1

/-- Modelled from the spec: the maximum contribution of one weight over
the input range, `max (w * x_min) (w * x_max)` (accounts for the sign of
`w`). -/
def contribution (w : ℚ) (r : InputRange) : ℚ := max (w * r.xMin) (w * r.xMax)

/-- Modelled from the spec: worst-case accumulator value `v_max`: the sum
of the maximum contributions over all active (`mask[i] = true`)
positions. -/
def vMax (weights : List ℚ) (mask : List Bool) (r : InputRange) : ℚ :=
  (List.zipWith (fun w m => if m then contribution w r else 0) weights mask).sum

/-- Modelled from the spec: `check_layer(weights, mask, input_range,
bound_bits)`.  Fails with `ShapeMismatch` when lengths differ, with
`InvalidRange` when `x_min > x_max`; otherwise returns `Satisfied` when
`v_max ≤ 2 ^ bound_bits - 1` and `Violated(v_max, limit)` otherwise. -/
def check_layer (weights : List ℚ) (mask : List Bool) (r : InputRange)
    (bound_bits : Nat) : Except EnforcerError CheckResult :=
  if weights.length ≠ mask.length then .error .ShapeMismatch
  else if r.xMax < r.xMin then .error .InvalidRange
  else if vMax weights mask r ≤ accLimit bound_bits then .ok .Satisfied
  else .ok (.Violated (vMax weights mask r) (accLimit bound_bits))

/-- Modelled from the spec: the indices the pruning policy may select
from: positions below both lengths whose mask entry is `true`. -/
def activeIndices (weights : List ℚ) (mask : List Bool) : List Nat :=
  (List.range (min weights.length mask.length)).filter (fun i => mask.getD i false)

/-- Modelled from the spec: the deterministic comparator of the pruning
policy: keep the candidate of strictly smaller absolute weight, the
earlier index on ties. -/
def pickSmaller (weights : List ℚ) : Option Nat → Nat → Option Nat
  | none, j => some j
  | some i, j => if |weights.getD j 0| < |weights.getD i 0| then some j else some i

/-- Modelled from the spec: the active index of smallest absolute weight,
ties broken by lowest index (an explicit deterministic comparator). -/
def smallestActive (weights : List ℚ) (mask : List Bool) : Option Nat :=
  (activeIndices weights mask).foldl (pickSmaller weights) none

/-- Modelled from the spec: the pruning loop of `prune_to_satisfy`:
repeatedly mask off the smallest-magnitude active weight, recomputing
`v_max` after each removal, until `Satisfied` or the active count would
drop below `target`.  `fuel` bounds the recursion; `prune_to_satisfy`
supplies the active count, which is enough. -/
def pruneLoop (weights : List ℚ) (r : InputRange) (limit : ℚ) (target : Nat) :
    Nat → List Bool → List Bool × PruneStatus
  | 0, mask =>
      (mask, if vMax weights mask r ≤ limit then .Satisfied else .InsufficientPruning)
  | fuel + 1, mask =>
      if vMax weights mask r ≤ limit then (mask, .Satisfied)
      else if mask.count true ≤ target then (mask, .InsufficientPruning)
      else
        match smallestActive weights mask with
        | none => (mask, .InsufficientPruning)
        | some i => pruneLoop weights r limit target fuel (mask.set i false)

/-- Modelled from the spec: `prune_to_satisfy(weights, mask, input_range,
bound_bits, target_active_count)`.  Validates the inputs (`ShapeMismatch`,
`InvalidRange`, `InvalidTarget`), then runs the pruning policy and returns
the final mask together with a `Satisfied` / `InsufficientPruning`
status. -/
def prune_to_satisfy (weights : List ℚ) (mask : List Bool) (r : InputRange)
    (bound_bits : Nat) (target_active_count : Nat) :
    Except EnforcerError (List Bool × PruneStatus) :=
  if weights.length ≠ mask.length then .error .ShapeMismatch
  else if r.xMax < r.xMin then .error .InvalidRange
  else if target_active_count < 1 ∨ weights.length < target_active_count then
    .error .InvalidTarget
  else
    .ok (pruneLoop weights r (accLimit bound_bits) target_active_count
      (mask.count true) mask)

/-- The active positions of `m2` are a subset of those of `m1`. -/
def maskSubset (m2 m1 : List Bool) : Prop :=
  ∀ i, m2.getD i false = true → m1.getD i false = true

/-- From the notebook (calibration cell): collect the token counts of all
examples, raise the ValueError when some count differs from the first,
otherwise set `BLOCK_SIZE` to the first count.  On an empty dataset the
`all` check passes vacuously and indexing `lengths[0]` raises an
IndexError instead. -/
def computeBlockSize (tokenized_dataset : List (List Int)) : Except String Nat :=
  match tokenized_dataset.map List.length with
  | [] => .error "IndexError: list index out of range"
  | l0 :: rest =>
    if (l0 :: rest).all (fun l => l == l0) then .ok l0
    else .error "All examples must have the same length for calibration."

/-- The two setup actions the calibration cell and the following cell
perform after the length check succeeds. -/
inductive SetupStep where
  | loraTrainerConstructed
  | compiled
deriving DecidableEq

/-- From the notebook: the calibration length check runs before the
`LoraTrainer` is constructed and before `lora_trainer.compile`; a raised
exception aborts the cell, so neither setup step happens. -/
def calibrationAndSetup (tokenized_dataset : List (List Int)) :
    Except String (Nat × List SetupStep) :=
  match computeBlockSize tokenized_dataset with
  | .error e => .error e
  | .ok blockSize => .ok (blockSize, [.loraTrainerConstructed, .compiled])

/-! ## Helper lemmas -/

theorem contribution_zero (r : InputRange) : contribution 0 r = 0 := by
  simp [contribution]

theorem contribution_nonneg (w : ℚ) (r : InputRange) (h0 : r.xMin ≤ 0)
    (h1 : 0 ≤ r.xMax) : 0 ≤ contribution w r := by
  rcases le_or_lt 0 w with hw | hw
  · exact le_max_of_le_right (mul_nonneg hw h1)
  · exact le_max_of_le_left (by nlinarith)

theorem vMax_nil (m : List Bool) (r : InputRange) : vMax [] m r = 0 := rfl

theorem vMax_nil_mask (w : List ℚ) (r : InputRange) : vMax w [] r = 0 := by
  cases w <;> rfl

theorem vMax_cons (a : ℚ) (w : List ℚ) (c : Bool) (m : List Bool) (r : InputRange) :
    vMax (a :: w) (c :: m) r
      = (if c then contribution a r else 0) + vMax w m r := by
  simp [vMax]

theorem maskSubset_refl (m : List Bool) : maskSubset m m := fun _ h => h

theorem maskSubset_trans {a b c : List Bool} (h1 : maskSubset a b)
    (h2 : maskSubset b c) : maskSubset a c := fun i h => h2 i (h1 i h)

theorem maskSubset_cons {a b : Bool} {m2 m1 : List Bool}
    (h : maskSubset (a :: m2) (b :: m1)) :
    (a = true → b = true) ∧ maskSubset m2 m1 := by
  constructor
  · intro ha
    have := h 0
    rw [List.getD_cons_zero, List.getD_cons_zero] at this
    exact this ha
  · intro i hi
    have := h (i + 1)
    rw [List.getD_cons_succ, List.getD_cons_succ] at this
    exact this hi
theorem pickSmaller_foldl_mem (w : List ℚ) :
    ∀ (l : List Nat) (acc : Option Nat) (i : Nat),
      l.foldl (pickSmaller w) acc = some i → acc = some i ∨ i ∈ l := by
  intro l
  induction l with
  | nil => intro acc i h; exact Or.inl h
  | cons j l ih =>
    intro acc i h
    rcases ih (pickSmaller w acc j) i h with h' | h'
    · cases acc with
      | none =>
        simp only [pickSmaller] at h'
        injection h' with h''
        exact Or.inr (h'' ▸ List.mem_cons_self j l)
      | some k =>
        by_cases hlt : |w.getD j 0| < |w.getD k 0|
        · simp only [pickSmaller, if_pos hlt] at h'
          injection h' with h''
          exact Or.inr (h'' ▸ List.mem_cons_self j l)
        · simp only [pickSmaller, if_neg hlt] at h'
          exact Or.inl h'
    · exact Or.inr (List.mem_cons_of_mem j h')

theorem pickSmaller_foldl_isSome (w : List ℚ) :
    ∀ (l : List Nat) (k : Nat), ∃ i, l.foldl (pickSmaller w) (some k) = some i := by
  intro l
  induction l with
  | nil => intro k; exact ⟨k, rfl⟩
  | cons j l ih =>
    intro k
    rw [List.foldl_cons]
    by_cases hlt : |w.getD j 0| < |w.getD k 0|
    · simp only [pickSmaller, if_pos hlt]
      exact ih j
    · simp only [pickSmaller, if_neg hlt]
      exact ih k

theorem smallestActive_isSome (w : List ℚ) (m : List Bool)
    (h : activeIndices w m ≠ []) : ∃ i, smallestActive w m = some i := by
  obtain ⟨j, l, hjl⟩ := List.exists_cons_of_ne_nil h
  rw [smallestActive, hjl, List.foldl_cons]
  exact pickSmaller_foldl_isSome w l j

theorem smallestActive_mem (w : List ℚ) (m : List Bool) (i : Nat)
    (h : smallestActive w m = some i) : i ∈ activeIndices w m := by
  rcases pickSmaller_foldl_mem w (activeIndices w m) none i h with h' | h'
  · exact Option.noConfusion h'
  · exact h'

theorem mem_activeIndices {w : List ℚ} {m : List Bool} {i : Nat}
    (h : i ∈ activeIndices w m) :
    i < w.length ∧ i < m.length ∧ m.getD i false = true := by
  rw [activeIndices, List.mem_filter, List.mem_range] at h
  obtain ⟨h1, h2⟩ := h
  exact ⟨Nat.lt_of_lt_of_le h1 (Nat.min_le_left _ _),
    Nat.lt_of_lt_of_le h1 (Nat.min_le_right _ _), h2⟩

theorem activeIndices_ne_nil {w : List ℚ} {m : List Bool}
    (hlen : w.length = m.length) (hc : 0 < m.count true) :
    activeIndices w m ≠ [] := by
  have hmem : true ∈ m := List.count_pos_iff.mp hc
  obtain ⟨n, hn, hget⟩ := List.mem_iff_getElem.mp hmem
  apply List.ne_nil_of_mem (a := n)
  rw [activeIndices, List.mem_filter, List.mem_range]
  refine ⟨?_, ?_⟩
  · rw [hlen, Nat.min_self]
    exact hn
  · show m.getD n false = true
    rw [List.getD_eq_getElem m false hn]
    exact hget

theorem count_set_false :
    ∀ (m : List Bool) (i : Nat), m.getD i false = true →
      (m.set i false).count true < m.count true := by
  intro m
  induction m with
  | nil =>
    intro i h
    rw [List.getD_nil] at h
    exact absurd h (by simp)
  | cons a m ih =>
    intro i h
    cases i with
    | zero =>
      rw [List.getD_cons_zero] at h
      subst h
      rw [List.set_cons_zero, List.count_cons, List.count_cons]
      simp
    | succ i =>
      rw [List.getD_cons_succ] at h
      rw [List.set_cons_succ, List.count_cons, List.count_cons]
      exact Nat.add_lt_add_right (ih i h) _

theorem getD_set_false :
    ∀ (m : List Bool) (i j : Nat),
      (m.set i false).getD j false = true → m.getD j false = true := by
  intro m
  induction m with
  | nil => intro i j h; simp at h
  | cons a m ih =>
    intro i j h
    cases i with
    | zero =>
      cases j with
      | zero =>
        rw [List.set_cons_zero, List.getD_cons_zero] at h
        exact absurd h (by simp)
      | succ j =>
        rw [List.set_cons_zero, List.getD_cons_succ] at h
        rw [List.getD_cons_succ]
        exact h
    | succ i =>
      cases j with
      | zero =>
        rw [List.set_cons_succ, List.getD_cons_zero] at h
        rwa [List.getD_cons_zero]
      | succ j =>
        rw [List.set_cons_succ, List.getD_cons_succ] at h
        rw [List.getD_cons_succ]
        exact ih i j h

theorem maskSubset_set_false (m : List Bool) (i : Nat) :
    maskSubset (m.set i false) m :=
  fun j h => getD_set_false m i j h

theorem vMax_mono (r : InputRange) (h0 : r.xMin ≤ 0) (h1 : 0 ≤ r.xMax) :
    ∀ (w : List ℚ) (m1 m2 : List Bool), m1.length = m2.length →
      maskSubset m2 m1 → vMax w m2 r ≤ vMax w m1 r := by
  intro w
  induction w with
  | nil => intro m1 m2 _ _; rw [vMax_nil, vMax_nil]
  | cons a w ih =>
    intro m1 m2 hlen hsub
    cases m1 with
    | nil =>
      cases m2 with
      | nil => exact le_refl _
      | cons c m2 => simp at hlen
    | cons b m1 =>
      cases m2 with
      | nil => simp at hlen
      | cons c m2 =>
        obtain ⟨hcb, hsub'⟩ := maskSubset_cons hsub
        have hlen' : m1.length = m2.length := by simpa using hlen
        have ihle := ih m1 m2 hlen' hsub'
        rw [vMax_cons, vMax_cons]
        have hCle : (if c then contribution a r else 0)
            ≤ (if b then contribution a r else 0) := by
          cases c with
          | true => rw [hcb rfl]
          | false =>
            rw [if_neg Bool.false_ne_true]
            cases b with
            | true => exact contribution_nonneg a r h0 h1
            | false => exact le_refl _
        exact add_le_add hCle ihle

theorem vMax_set_zero (r : InputRange) :
    ∀ (w : List ℚ) (m : List Bool) (i : Nat),
      vMax w (m.set i false) r = vMax (w.set i 0) (m.set i true) r := by
  intro w
  induction w with
  | nil => intro m i; rw [vMax_nil, List.set_nil, vMax_nil]
  | cons a w ih =>
    intro m i
    cases m with
    | nil => simp [List.set_nil, vMax_nil_mask]
    | cons b m =>
      cases i with
      | zero =>
        rw [List.set_cons_zero, List.set_cons_zero, List.set_cons_zero,
          vMax_cons, vMax_cons, contribution_zero]
        simp
      | succ i =>
        rw [List.set_cons_succ, List.set_cons_succ, List.set_cons_succ,
          vMax_cons, vMax_cons, ih m i]

theorem pruneLoop_length (w : List ℚ) (r : InputRange) (L : ℚ) (t : Nat) :
    ∀ (fuel : Nat) (m : List Bool),
      ((pruneLoop w r L t fuel m).1).length = m.length := by
  intro fuel
  induction fuel with
  | zero => intro m; rfl
  | succ fuel ih =>
    intro m
    rw [pruneLoop]
    split
    · rfl
    · split
      · rfl
      · split
        · rfl
        · rw [ih, List.length_set]

theorem pruneLoop_subset (w : List ℚ) (r : InputRange) (L : ℚ) (t : Nat) :
    ∀ (fuel : Nat) (m : List Bool), maskSubset (pruneLoop w r L t fuel m).1 m := by
  intro fuel
  induction fuel with
  | zero => intro m; exact maskSubset_refl m
  | succ fuel ih =>
    intro m
    rw [pruneLoop]
    split
    · exact maskSubset_refl m
    · split
      · exact maskSubset_refl m
      · split
        · exact maskSubset_refl m
        · exact maskSubset_trans (ih _) (maskSubset_set_false m _)

theorem pruneLoop_post (w : List ℚ) (r : InputRange) (L : ℚ) (t : Nat) :
    ∀ (fuel : Nat) (m : List Bool), w.length = m.length → m.count true ≤ fuel →
      (vMax w (pruneLoop w r L t fuel m).1 r ≤ L ∧
        (pruneLoop w r L t fuel m).2 = .Satisfied) ∨
      (¬ vMax w (pruneLoop w r L t fuel m).1 r ≤ L ∧
        (pruneLoop w r L t fuel m).1.count true ≤ t ∧
        (pruneLoop w r L t fuel m).2 = .InsufficientPruning) := by
  intro fuel
  induction fuel with
  | zero =>
    intro m hlen hc
    by_cases h1 : vMax w m r ≤ L
    · left
      refine ⟨h1, ?_⟩
      show (if vMax w m r ≤ L then PruneStatus.Satisfied
        else PruneStatus.InsufficientPruning) = PruneStatus.Satisfied
      rw [if_pos h1]
    · right
      refine ⟨h1, ?_, ?_⟩
      · show m.count true ≤ t
        omega
      · show (if vMax w m r ≤ L then PruneStatus.Satisfied
          else PruneStatus.InsufficientPruning) = PruneStatus.InsufficientPruning
        rw [if_neg h1]
  | succ fuel ih =>
    intro m hlen hc
    by_cases h1 : vMax w m r ≤ L
    · left
      rw [pruneLoop, if_pos h1]
      exact ⟨h1, rfl⟩
    · by_cases h2 : m.count true ≤ t
      · right
        rw [pruneLoop, if_neg h1, if_pos h2]
        exact ⟨h1, h2, rfl⟩
      · have hcpos : 0 < m.count true := by omega
        obtain ⟨i, hi⟩ := smallestActive_isSome w m (activeIndices_ne_nil hlen hcpos)
        obtain ⟨hiw, him, hitrue⟩ := mem_activeIndices (smallestActive_mem w m i hi)
        rw [pruneLoop, if_neg h1, if_neg h2, hi]
        have hcount := count_set_false m i hitrue
        exact ih (m.set i false) (by rw [List.length_set]; exact hlen) (by omega)

theorem pruneLoop_fix_sat (w : List ℚ) (r : InputRange) (L : ℚ) (t : Nat)
    (m : List Bool) (h : vMax w m r ≤ L) :
    ∀ fuel, pruneLoop w r L t fuel m = (m, .Satisfied) := by
  intro fuel
  cases fuel with
  | zero => rw [pruneLoop, if_pos h]
  | succ fuel => rw [pruneLoop, if_pos h]

theorem pruneLoop_fix_insuff (w : List ℚ) (r : InputRange) (L : ℚ) (t : Nat)
    (m : List Bool) (h1 : ¬ vMax w m r ≤ L) (h2 : m.count true ≤ t) :
    ∀ fuel, pruneLoop w r L t fuel m = (m, .InsufficientPruning) := by
  intro fuel
  cases fuel with
  | zero => rw [pruneLoop, if_neg h1]
  | succ fuel => rw [pruneLoop, if_neg h1, if_pos h2]

theorem prune_to_satisfy_ok_inv (w : List ℚ) (m m' : List Bool) (r : InputRange)
    (b t : Nat) (s : PruneStatus)
    (h : prune_to_satisfy w m r b t = .ok (m', s)) :
    w.length = m.length ∧ ¬ r.xMax < r.xMin ∧ ¬ (t < 1 ∨ w.length < t) ∧
      pruneLoop w r (accLimit b) t (m.count true) m = (m', s) := by
  rw [prune_to_satisfy] at h
  split_ifs at h with hs hr ht
  injection h with hh
  exact ⟨not_not.mp hs, hr, ht, hh⟩

theorem prune_to_satisfy_idem_helper (w : List ℚ) (m m' : List Bool)
    (r : InputRange) (b t : Nat) (s : PruneStatus)
    (h : prune_to_satisfy w m r b t = .ok (m', s)) :
    prune_to_satisfy w m' r b t = .ok (m', s) := by
  obtain ⟨hlen, hr, ht, hploop⟩ := prune_to_satisfy_ok_inv w m m' r b t s h
  have hm' : (pruneLoop w r (accLimit b) t (m.count true) m).1 = m' :=
    congrArg Prod.fst hploop
  have hs' : (pruneLoop w r (accLimit b) t (m.count true) m).2 = s :=
    congrArg Prod.snd hploop
  have hlen' : m'.length = m.length := by
    rw [← hm']
    exact pruneLoop_length w r (accLimit b) t (m.count true) m
  have hpost := pruneLoop_post w r (accLimit b) t (m.count true) m hlen (le_refl _)
  rw [hm', hs'] at hpost
  rw [prune_to_satisfy, if_neg (not_not.mpr (hlen.trans hlen'.symm)),
    if_neg hr, if_neg ht]
  rcases hpost with ⟨hle, hsat⟩ | ⟨hnle, hct, hins⟩
  · rw [pruneLoop_fix_sat w r (accLimit b) t m' hle (m'.count true), hsat]
  · rw [pruneLoop_fix_insuff w r (accLimit b) t m' hnle hct (m'.count true), hins]

/-! ## Claims -/

/-- Claim C1: for weights and mask of equal length, a valid input range,
and positive `bound_bits`, `check_layer` returns `Satisfied` iff
`v_max ≤ 2 ^ bound_bits - 1`; otherwise it returns
`Violated(v_max, limit)`. -/
theorem check_layer_satisfied_iff (w : List ℚ) (m : List Bool) (r : InputRange)
    (b : Nat) (hlen : w.length = m.length) (hr : r.xMin ≤ r.xMax)
    (_hb : 0 < b) :
    (check_layer w m r b = .ok .Satisfied ↔ vMax w m r ≤ 2 ^ b - 1) ∧
    (¬ vMax w m r ≤ 2 ^ b - 1 →
      check_layer w m r b = .ok (.Violated (vMax w m r) (2 ^ b - 1))) := by
  have hsh : ¬ w.length ≠ m.length := not_not.mpr hlen
  have hrr : ¬ r.xMax < r.xMin := not_lt.mpr hr
  rw [check_layer, if_neg hsh, if_neg hrr, accLimit]
  constructor
  · constructor
    · intro h
      by_contra hv
      rw [if_neg hv] at h
      injection h with h'
      exact CheckResult.noConfusion h'
    · intro hv
      rw [if_pos hv]
  · intro hv
    rw [if_neg hv]

theorem check_layer_satisfied_iff_witness :
    ([1] : List ℚ).length = ([true] : List Bool).length ∧
    (InputRange.mk 0 1).xMin ≤ (InputRange.mk 0 1).xMax ∧ 0 < 7 ∧
    (check_layer [1] [true] ⟨0, 1⟩ 7 = .ok .Satisfied ↔
      vMax [1] [true] ⟨0, 1⟩ ≤ 2 ^ 7 - 1) :=
  ⟨rfl, by norm_num, by norm_num,
    (check_layer_satisfied_iff [1] [true] ⟨0, 1⟩ 7 rfl (by norm_num)
      (by norm_num)).1⟩

/-- Claim C9: masking a position returns the same `check_layer` result as
zeroing its weight and keeping it active, because a zero weight
contributes `max (0 * x_min) (0 * x_max) = 0` to `v_max`. -/
theorem mask_equiv_zero_weight (w : List ℚ) (m : List Bool) (r : InputRange)
    (b : Nat) (i : Nat) :
    check_layer w (m.set i false) r b
      = check_layer (w.set i 0) (m.set i true) r b ∧
    contribution 0 r = 0 := by
  refine ⟨?_, contribution_zero r⟩
  rw [check_layer, check_layer, List.length_set, List.length_set,
    List.length_set, vMax_set_zero]

/-- Claim C8: the accumulator limit for bit width `B` is the inclusive
bound `2 ^ B - 1`; 7 bits give limit 127 (the `[0, 127]` range), and a
`v_max` exactly equal to the limit yields `Satisfied`. -/
theorem accumulator_limit_boundary (w : List ℚ) (m : List Bool)
    (r : InputRange) (b : Nat) (hlen : w.length = m.length)
    (hr : r.xMin ≤ r.xMax) :
    accLimit b = 2 ^ b - 1 ∧ accLimit 7 = 127 ∧ (0 : ℚ) ≤ accLimit 7 ∧
    (vMax w m r = accLimit b → check_layer w m r b = .ok .Satisfied) := by
  refine ⟨rfl, by norm_num [accLimit], by norm_num [accLimit], ?_⟩
  intro hv
  rw [check_layer, if_neg (not_not.mpr hlen), if_neg (not_lt.mpr hr),
    if_pos (le_of_eq hv)]

theorem accumulator_limit_boundary_witness :
    accLimit 7 = 127 ∧ check_layer [127] [true] ⟨0, 1⟩ 7 = .ok .Satisfied :=
  ⟨(accumulator_limit_boundary [127] [true] ⟨0, 1⟩ 7 rfl (by norm_num)).2.1,
    (accumulator_limit_boundary [127] [true] ⟨0, 1⟩ 7 rfl (by norm_num)).2.2.2
      (by norm_num [vMax, contribution, accLimit])⟩

/-- Claim C3 as stated is false: with weights `[1]` and the valid input
range `[-2, -1]`, masking off the only position (active positions
`∅ ⊆ {0}`) raises `v_max` from `-1` to `0`. -/
theorem vMax_mono_counterexample :
    maskSubset [false] [true] ∧
    (InputRange.mk (-2) (-1)).xMin ≤ (InputRange.mk (-2) (-1)).xMax ∧
    ¬ vMax [1] [false] ⟨-2, -1⟩ ≤ vMax [1] [true] ⟨-2, -1⟩ := by
  refine ⟨?_, by norm_num, ?_⟩
  · intro i h
    cases i with
    | zero =>
      rw [List.getD_cons_zero] at h
      exact absurd h (by simp)
    | succ i =>
      rw [List.getD_cons_succ, List.getD_nil] at h
      exact absurd h (by simp)
  · norm_num [vMax, contribution]

/-- Claim C3 amended: when the input range contains zero
(`x_min ≤ 0 ≤ x_max`), every maximum contribution is nonnegative, and
masking off additional positions can only reduce or maintain `v_max`. -/
theorem vMax_mono_amended (w : List ℚ) (m1 m2 : List Bool) (r : InputRange)
    (h0 : r.xMin ≤ 0) (h1 : 0 ≤ r.xMax) (hl1 : w.length = m1.length)
    (hl2 : w.length = m2.length) (hsub : maskSubset m2 m1) :
    vMax w m2 r ≤ vMax w m1 r :=
  vMax_mono r h0 h1 w m1 m2 (hl1.symm.trans hl2) hsub

theorem vMax_mono_amended_witness :
    vMax [3, 5] [true, false] ⟨0, 2⟩ ≤ vMax [3, 5] [true, true] ⟨0, 2⟩ :=
  vMax_mono_amended [3, 5] [true, true] [true, false] ⟨0, 2⟩ (by norm_num)
    (by norm_num) rfl rfl (by
      intro i h
      cases i with
      | zero => rfl
      | succ j =>
        cases j with
        | zero => simp at h
        | succ k => simp at h)

/-- Claim C2 as stated is false: after pruning the weight 2, the
smallest-magnitude active weight is 30 (not -40), so the loop prunes 30
next, reaches `v_max = 100 ≤ 127` and stops with both 50 and -40 active;
the final mask is not `[true, false, false, false]`. -/
theorem prune_example_counterexample :
    prune_to_satisfy [50, -40, 30, 2] [true, true, true, true] ⟨0, 2⟩ 7 1
      = .ok ([true, true, false, false], .Satisfied) ∧
    ([true, true, false, false] : List Bool) ≠ [true, false, false, false] := by
  constructor
  · norm_num [prune_to_satisfy, pruneLoop, smallestActive, pickSmaller,
      activeIndices, List.range_succ, vMax, contribution, accLimit]
  · decide

/-- Claim C2 amended: on weights `[50, -40, 30, 2]`, range `[0, 2]`,
7 bits, floor 1, the initial sum 164 is `Violated`; position 3 (weight 2)
is pruned first (sum 160, still violated), then position 2 (weight 30);
the sum drops to 100 ≤ 127 and the final mask keeps the weights 50 and
-40 with status `Satisfied`. -/
theorem prune_example_trace :
    check_layer [50, -40, 30, 2] [true, true, true, true] ⟨0, 2⟩ 7
      = .ok (.Violated 164 127) ∧
    smallestActive [50, -40, 30, 2] [true, true, true, true] = some 3 ∧
    vMax [50, -40, 30, 2] [true, true, true, false] ⟨0, 2⟩ = 160 ∧
    smallestActive [50, -40, 30, 2] [true, true, true, false] = some 2 ∧
    vMax [50, -40, 30, 2] [true, true, false, false] ⟨0, 2⟩ = 100 ∧
    prune_to_satisfy [50, -40, 30, 2] [true, true, true, true] ⟨0, 2⟩ 7 1
      = .ok ([true, true, false, false], .Satisfied) := by
  refine ⟨?_, ?_, ?_, ?_, ?_, ?_⟩ <;>
    norm_num [check_layer, prune_to_satisfy, pruneLoop, smallestActive,
      pickSmaller, activeIndices, List.range_succ, vMax, contribution, accLimit]

/-- Claim C5: pruning is monotonic: the active positions of the returned
mask are a subset of the input mask's active positions, and a position
masked by one call is still masked after any later call (Active → Pruned
only, no transition back). -/
theorem prune_monotonic (w : List ℚ) (m m' m'' : List Bool) (r r2 : InputRange)
    (b b2 t t2 : Nat) (s s2 : PruneStatus)
    (h : prune_to_satisfy w m r b t = .ok (m', s)) :
    maskSubset m' m ∧
    (prune_to_satisfy w m' r2 b2 t2 = .ok (m'', s2) → maskSubset m'' m) := by
  have key : ∀ (ma mb : List Bool) (ra : InputRange) (ba ta : Nat)
      (sa : PruneStatus), prune_to_satisfy w ma ra ba ta = .ok (mb, sa) →
      maskSubset mb ma := by
    intro ma mb ra ba ta sa hab
    obtain ⟨_, _, _, hploop⟩ := prune_to_satisfy_ok_inv w ma mb ra ba ta sa hab
    have hsub := pruneLoop_subset w ra (accLimit ba) ta (ma.count true) ma
    rwa [congrArg Prod.fst hploop] at hsub
  exact ⟨key m m' r b t s h, fun h2 =>
    maskSubset_trans (key m' m'' r2 b2 t2 s2 h2) (key m m' r b t s h)⟩

theorem prune_monotonic_witness :
    maskSubset [true, true, false, false] [true, true, true, true] :=
  (prune_monotonic [50, -40, 30, 2] [true, true, true, true]
    [true, true, false, false] [] ⟨0, 2⟩ ⟨0, 2⟩ 7 7 1 1 .Satisfied .Satisfied
    (by norm_num [prune_to_satisfy, pruneLoop, smallestActive, pickSmaller,
      activeIndices, List.range_succ, vMax, contribution, accLimit])).1

/-- Claim C7: on valid inputs `prune_to_satisfy` never raises for a bound
still violated at the floor: it returns the mask with a status, and the
status is `InsufficientPruning` exactly when the final `v_max` still
exceeds the limit; on the spec's example (`[100, 90]`, range `[0, 1]`,
6 bits, floor 2) nothing is pruned, the sum stays 190, and the status is
`InsufficientPruning`. -/
theorem prune_insufficient (w : List ℚ) (m : List Bool) (r : InputRange)
    (b t : Nat) (hlen : w.length = m.length) (hr : r.xMin ≤ r.xMax)
    (ht1 : 1 ≤ t) (ht2 : t ≤ w.length) :
    (∃ p, prune_to_satisfy w m r b t = .ok p ∧
      (p.2 = .InsufficientPruning ↔ ¬ vMax w p.1 r ≤ accLimit b)) ∧
    prune_to_satisfy [100, 90] [true, true] ⟨0, 1⟩ 6 2
      = .ok ([true, true], .InsufficientPruning) ∧
    vMax [100, 90] [true, true] ⟨0, 1⟩ = 190 ∧ accLimit 6 = 63 := by
  refine ⟨?_, ?_, ?_, ?_⟩
  · refine ⟨pruneLoop w r (accLimit b) t (m.count true) m, ?_, ?_⟩
    · rw [prune_to_satisfy, if_neg (not_not.mpr hlen), if_neg (not_lt.mpr hr),
        if_neg (by omega : ¬ (t < 1 ∨ w.length < t))]
    · have hpost := pruneLoop_post w r (accLimit b) t (m.count true) m hlen
        (le_refl _)
      rcases hpost with ⟨hle, hsat⟩ | ⟨hnle, _, hins⟩
      · rw [hsat]
        constructor
        · intro hcon
          exact PruneStatus.noConfusion hcon
        · intro hcon
          exact absurd hle hcon
      · rw [hins]
        exact ⟨fun _ => hnle, fun _ => rfl⟩
  · norm_num [prune_to_satisfy, pruneLoop, smallestActive, pickSmaller,
      activeIndices, List.range_succ, vMax, contribution, accLimit]
  · norm_num [vMax, contribution]
  · norm_num [accLimit]

theorem prune_insufficient_witness :
    prune_to_satisfy [100, 90] [true, true] ⟨0, 1⟩ 6 2
      = .ok ([true, true], .InsufficientPruning) :=
  (prune_insufficient [100, 90] [true, true] ⟨0, 1⟩ 6 2 rfl (by norm_num)
    (by norm_num) (by norm_num)).2.1

/-- Claim C4: `prune_to_satisfy` is deterministic (identical inputs give
identical results) and idempotent: re-running it on its own output mask
returns the same mask with the same status. -/
theorem prune_deterministic_idempotent (w : List ℚ) (m m' : List Bool)
    (r : InputRange) (b t : Nat) (s : PruneStatus) :
    prune_to_satisfy w m r b t = prune_to_satisfy w m r b t ∧
    (prune_to_satisfy w m r b t = .ok (m', s) →
      prune_to_satisfy w m' r b t = .ok (m', s)) :=
  ⟨rfl, fun h => prune_to_satisfy_idem_helper w m m' r b t s h⟩

theorem prune_deterministic_idempotent_witness :
    prune_to_satisfy [3, 1] [true, false] ⟨0, 1⟩ 2 1
      = .ok ([true, false], .Satisfied) :=
  (prune_deterministic_idempotent [3, 1] [true, true] [true, false] ⟨0, 1⟩ 2 1
    .Satisfied).2
    (by norm_num [prune_to_satisfy, pruneLoop, smallestActive, pickSmaller,
      activeIndices, List.range_succ, vMax, contribution, accLimit])

/-- Claim C6: the error taxonomy: `ShapeMismatch` exactly when the lengths
differ; `InvalidRange` exactly when `x_min > x_max` (after the shape
check); `InvalidTarget` exactly when `target_active_count` is outside
`[1, N]` (after shape and range); an erroring call produces no mask. -/
theorem error_taxonomy (w : List ℚ) (m : List Bool) (r : InputRange)
    (b t : Nat) :
    (check_layer w m r b = .error .ShapeMismatch ↔ w.length ≠ m.length) ∧
    (w.length = m.length →
      (check_layer w m r b = .error .InvalidRange ↔ r.xMax < r.xMin)) ∧
    (prune_to_satisfy w m r b t = .error .ShapeMismatch ↔
      w.length ≠ m.length) ∧
    (w.length = m.length →
      (prune_to_satisfy w m r b t = .error .InvalidRange ↔ r.xMax < r.xMin)) ∧
    (w.length = m.length → r.xMin ≤ r.xMax →
      (prune_to_satisfy w m r b t = .error .InvalidTarget ↔
        (t < 1 ∨ w.length < t))) ∧
    (∀ e p, prune_to_satisfy w m r b t = .error e →
      prune_to_satisfy w m r b t ≠ .ok p) := by
  refine ⟨?_, ?_, ?_, ?_, ?_, ?_⟩
  · rw [check_layer]
    by_cases h1 : w.length ≠ m.length
    · rw [if_pos h1]
      exact iff_of_true rfl h1
    · rw [if_neg h1]
      apply iff_of_false _ h1
      intro hcon
      by_cases h2 : r.xMax < r.xMin
      · rw [if_pos h2] at hcon
        injection hcon with h'
        exact EnforcerError.noConfusion h'
      · rw [if_neg h2] at hcon
        by_cases h3 : vMax w m r ≤ accLimit b
        · rw [if_pos h3] at hcon
          exact Except.noConfusion hcon
        · rw [if_neg h3] at hcon
          exact Except.noConfusion hcon
  · intro hlen
    rw [check_layer, if_neg (not_not.mpr hlen)]
    by_cases h2 : r.xMax < r.xMin
    · rw [if_pos h2]
      exact iff_of_true rfl h2
    · rw [if_neg h2]
      apply iff_of_false _ h2
      intro hcon
      by_cases h3 : vMax w m r ≤ accLimit b
      · rw [if_pos h3] at hcon
        exact Except.noConfusion hcon
      · rw [if_neg h3] at hcon
        exact Except.noConfusion hcon
  · rw [prune_to_satisfy]
    by_cases h1 : w.length ≠ m.length
    · rw [if_pos h1]
      exact iff_of_true rfl h1
    · rw [if_neg h1]
      apply iff_of_false _ h1
      intro hcon
      by_cases h2 : r.xMax < r.xMin
      · rw [if_pos h2] at hcon
        injection hcon with h'
        exact EnforcerError.noConfusion h'
      · rw [if_neg h2] at hcon
        by_cases h3 : t < 1 ∨ w.length < t
        · rw [if_pos h3] at hcon
          injection hcon with h'
          exact EnforcerError.noConfusion h'
        · rw [if_neg h3] at hcon
          exact Except.noConfusion hcon
  · intro hlen
    rw [prune_to_satisfy, if_neg (not_not.mpr hlen)]
    by_cases h2 : r.xMax < r.xMin
    · rw [if_pos h2]
      exact iff_of_true rfl h2
    · rw [if_neg h2]
      apply iff_of_false _ h2
      intro hcon
      by_cases h3 : t < 1 ∨ w.length < t
      · rw [if_pos h3] at hcon
        injection hcon with h'
        exact EnforcerError.noConfusion h'
      · rw [if_neg h3] at hcon
        exact Except.noConfusion hcon
  · intro hlen hr
    rw [prune_to_satisfy, if_neg (not_not.mpr hlen), if_neg (not_lt.mpr hr)]
    by_cases h3 : t < 1 ∨ w.length < t
    · rw [if_pos h3]
      exact iff_of_true rfl h3
    · rw [if_neg h3]
      apply iff_of_false _ h3
      intro hcon
      exact Except.noConfusion hcon
  · intro e p he hcon
    rw [he] at hcon
    exact Except.noConfusion hcon

theorem error_taxonomy_witness :
    check_layer [1, 1, 1, 1, 1] [true, true, true, true] ⟨0, 1⟩ 7
      = .error .ShapeMismatch ∧
    prune_to_satisfy [1] [true] ⟨5, 2⟩ 7 1 = .error .InvalidRange ∧
    prune_to_satisfy [1] [true] ⟨0, 1⟩ 7 2 = .error .InvalidTarget :=
  ⟨(error_taxonomy [1, 1, 1, 1, 1] [true, true, true, true] ⟨0, 1⟩ 7 1).1.mpr
      (by norm_num),
    ((error_taxonomy [1] [true] ⟨5, 2⟩ 7 1).2.2.2.1 rfl).mpr (by norm_num),
    ((error_taxonomy [1] [true] ⟨0, 1⟩ 7 2).2.2.2.2.1 rfl (by norm_num)).mpr
      (by norm_num)⟩

/-- Claim C10: the calibration step fails with the ValueError message
whenever two tokenized examples have different lengths — before the
`LoraTrainer` construction or compilation steps run — and sets
`BLOCK_SIZE` to the common length when all lengths agree. -/
theorem calibration_length_check (ds : List (List Int)) :
    (∀ a ∈ ds, ∀ c ∈ ds, a.length ≠ c.length →
      calibrationAndSetup ds
        = .error "All examples must have the same length for calibration.") ∧
    (∀ d ∈ ds, (∀ a ∈ ds, a.length = d.length) →
      calibrationAndSetup ds
        = .ok (d.length, [.loraTrainerConstructed, .compiled])) := by
  constructor
  · intro a ha c hc hne
    cases ds with
    | nil => exact absurd ha (List.not_mem_nil a)
    | cons d tl =>
      have hall : ¬ ((d.length :: tl.map List.length).all
          (fun l => l == d.length) = true) := by
        intro hall
        rw [List.all_eq_true] at hall
        have h1 : a.length = d.length := by
          have hmem : a.length ∈ d.length :: tl.map List.length := by
            rw [← List.map_cons]
            exact List.mem_map_of_mem List.length ha
          exact beq_iff_eq.mp (hall a.length hmem)
        have h2 : c.length = d.length := by
          have hmem : c.length ∈ d.length :: tl.map List.length := by
            rw [← List.map_cons]
            exact List.mem_map_of_mem List.length hc
          exact beq_iff_eq.mp (hall c.length hmem)
        exact hne (h1.trans h2.symm)
      simp only [calibrationAndSetup, computeBlockSize, List.map_cons]
      rw [if_neg hall]
  · intro d hd hall
    cases ds with
    | nil => exact absurd hd (List.not_mem_nil d)
    | cons e tl =>
      have he : e.length = d.length := hall e (List.mem_cons_self e tl)
      have hallb : ((e.length :: tl.map List.length).all
          (fun l => l == e.length)) = true := by
        rw [List.all_eq_true]
        intro x hx
        rw [← List.map_cons] at hx
        obtain ⟨y, hy, hxy⟩ := List.mem_map.mp hx
        subst hxy
        rw [beq_iff_eq, hall y hy, he]
      simp only [calibrationAndSetup, computeBlockSize, List.map_cons]
      rw [if_pos hallb, he]

theorem calibration_length_check_witness :
    calibrationAndSetup [[1, 2], [3]]
      = .error "All examples must have the same length for calibration." ∧
    calibrationAndSetup [[1, 2], [3, 4]]
      = .ok (2, [.loraTrainerConstructed, .compiled]) := by
  constructor
  · exact (calibration_length_check [[1, 2], [3]]).1 [1, 2] (by simp) [3]
      (by simp) (by norm_num)
  · have h := (calibration_length_check [[1, 2], [3, 4]]).2 [1, 2] (by simp)
      (by decide)
    simpa using h
